import Mathlib

/-!
Verification development for the comment-translation tool
(`translate_comments.py`).  The Python source is shallowly embedded:
lines are `List Char`, the translation backend is an explicit function
from the prompt to a result, and the per-file scanning loop of
`translate_file` becomes a fold over the list of lines.
-/

/-- The double-quote character. -/
def dq : Char := Char.ofNat 34

/-- The single-quote character. -/
def sqc : Char := Char.ofNat 39

/-- The backslash character. -/
def bsl : Char := Char.ofNat 92

/-- The newline character. -/
def nlc : Char := Char.ofNat 10

/-- The hash character that starts a comment. -/
def hashChar : Char := Char.ofNat 35

/-- The triple double-quote delimiter. -/
def q3 : List Char := [dq, dq, dq]

/-- The triple single-quote delimiter. -/
def t3 : List Char := [sqc, sqc, sqc]

/-- Whitespace as recognized by Python's default `str.strip`
(space, tab, newline, carriage return, vertical tab, form feed). -/
def pyIsSpace (c : Char) : Bool :=
  c == ' ' || c == Char.ofNat 9 || c == Char.ofNat 10 || c == Char.ofNat 13 ||
  c == Char.ofNat 11 || c == Char.ofNat 12

/-- Python `str.lstrip` restricted to a character predicate. -/
def pyLStrip (p : Char → Bool) (l : List Char) : List Char :=
  l.dropWhile p

/-- Python `str.rstrip` restricted to a character predicate. -/
def pyRStrip (p : Char → Bool) (l : List Char) : List Char :=
  (l.reverse.dropWhile p).reverse

/-- Python `str.strip` restricted to a character predicate. -/
def pyStrip (p : Char → Bool) (l : List Char) : List Char :=
  pyRStrip p (pyLStrip p l)

/-- Python `str.strip()` with the default whitespace set. -/
def pyStripWS (l : List Char) : List Char :=
  pyStrip pyIsSpace l

/-- Python substring containment (`needle in hay`). -/
def hasSubstr (needle : List Char) : List Char → Bool
  | [] => needle.isEmpty
  | c :: rest => needle.isPrefixOf (c :: rest) || hasSubstr needle rest

/-- Fuel-driven worker for `pyCount`; the fuel is the length of the
scanned list, so it never runs out. -/
def pyCountGo (needle : List Char) : Nat → List Char → Nat
  | _, [] => 0
  | 0, _ => 0
  | fuel + 1, c :: rest =>
    if needle.isPrefixOf (c :: rest) then
      pyCountGo needle fuel (List.drop (needle.length - 1) rest) + 1
    else
      pyCountGo needle fuel rest

/-- Python `str.count`: number of non-overlapping occurrences, scanning
left to right. -/
def pyCount (needle l : List Char) : Nat :=
  pyCountGo needle l.length l

/-- Python `str.split` on a single newline character. -/
def splitNL : List Char → List (List Char)
  | [] => [[]]
  | c :: rest =>
    if c == nlc then [] :: splitNL rest
    else
      match splitNL rest with
      | [] => [[c]]
      | h :: t => (c :: h) :: t

/-- Python `sep.join` with a single newline separator. -/
def joinNL : List (List Char) → List Char
  | [] => []
  | [l] => l
  | l :: h :: t => l ++ nlc :: joinNL (h :: t)

/-- Membership of a code point in the CJK unified ideograph range
`U+4E00`–`U+9FFF`, as matched by the source's regex. -/
def isChineseChar (c : Char) : Bool :=
  decide (0x4E00 ≤ c.toNat ∧ c.toNat ≤ 0x9FFF)

/-- Source `CommentTranslator._contains_chinese`: whether any character
lies in the CJK unified ideograph range. -/
def _contains_chinese (l : List Char) : Bool :=
  l.any isChineseChar

/-- Python `str.isalpha`, modelled on the character ranges this program
can meet: ASCII letters, Latin-1 letters, and the CJK unified
ideograph range. -/
def pyIsAlpha (c : Char) : Bool :=
  c.isAlpha || isChineseChar c ||
  decide (0xC0 ≤ c.toNat ∧ c.toNat ≤ 0xFF ∧ c.toNat ≠ 0xD7 ∧ c.toNat ≠ 0xF7)

/-- Result of one call to the chat-completion backend: either a raised
exception (network error, malformed response, ...) or a list of choice
message contents. -/
inductive BackendResult where
  | err : BackendResult
  | ok : List (List Char) → BackendResult
deriving DecidableEq

/-- The translation backend as seen by `translate_text`: a function
from the full prompt to the call's outcome. -/
abbrev Backend := List Char → BackendResult

/-- The context string for docstring spans. -/
def ctxDocstring : String := "docstring"

/-- The context string for comment spans. -/
def ctxComment : String := "comment"

/-- Text placed before the span in the docstring prompt. -/
def promptDocPre : List Char :=
  ("请将以下Python文档字符串从英文翻译为中文，保持格式和结构：\n\n").data

/-- Text placed after the span in the docstring prompt. -/
def promptDocPost : List Char :=
  ("\n\n只返回翻译后的中文文本，不要添加任何解释。").data

/-- Text placed before the span in the comment prompt. -/
def promptComPre : List Char :=
  ("请将以下Python注释从英文翻译为中文：\n\n").data

/-- Text placed after the span in the comment prompt. -/
def promptComPost : List Char :=
  ("\n\n只返回翻译后的中文文本，不要添加#符号或其他前缀。").data

/-- The prompt built by `translate_text` for a span and its context. -/
def buildPrompt (context : String) (text : List Char) : List Char :=
  if context = ctxDocstring then promptDocPre ++ text ++ promptDocPost
  else promptComPre ++ text ++ promptComPost

/-- Quote characters stripped from the backend's reply
(Python `strip` with a quote character set). -/
def isQuoteChar (c : Char) : Bool :=
  c == dq || c == sqc

/-- Source `CommentTranslator.translate_text`: gate (already Chinese,
too short, no alphabetic character), then one backend call whose failure
or empty choice list falls back to the original text; a successful reply
is whitespace-stripped and then quote-stripped. -/
def translate_text (tr : Backend) (text : List Char) (context : String) : List Char :=
  if _contains_chinese text = true then text
  else if (pyStripWS text).length < 3 ∨ text.any pyIsAlpha = false then text
  else
    match tr (buildPrompt context text) with
    | BackendResult.err => text
    | BackendResult.ok [] => text
    | BackendResult.ok (c :: _) => pyStrip isQuoteChar (pyStripWS c)

/-- Character scan of `_split_code_comment`: walks the line keeping the
previous character, the in-string flag and the active quote character;
returns the parts around the first hash found outside a string, or
`none`. -/
def findHash (prev : Option Char) (inS : Bool) (sc : Option Char)
    (before : List Char) : List Char → Option (List Char × List Char)
  | [] => none
  | ch :: rest =>
    if (ch == dq || ch == sqc) && !(prev == some bsl) then
      if inS = false then findHash (some ch) true (some ch) (before ++ [ch]) rest
      else if some ch == sc then findHash (some ch) false none (before ++ [ch]) rest
      else findHash (some ch) inS sc (before ++ [ch]) rest
    else if ch == hashChar && !inS then some (before, rest)
    else findHash (some ch) inS sc (before ++ [ch]) rest

/-- Source `CommentTranslator._split_code_comment`: split a line into a
code part and a comment part at the first hash outside a quoted
literal. -/
def _split_code_comment (line : List Char) : List Char × List Char :=
  if line.contains hashChar = false then (line, [])
  else
    match findHash none false none [] line with
    | some pr => (pyRStrip pyIsSpace pr.1, pyStrip pyIsSpace pr.2)
    | none => (line, [])

/-- Which branch of the scanner produced a span. -/
inductive SpanKind where
  | comment : SpanKind
  | docSingle : SpanKind
  | docMulti : SpanKind
deriving DecidableEq

/-- A comment or docstring span found by the scanner: its text as it is
handed to the gate, and the producing branch. -/
structure Span where
  text : List Char
  kind : SpanKind
deriving DecidableEq

/-- The scanner state of `translate_file`: the `in_docstring` flag, the
active delimiter and the accumulated block lines. -/
structure ScanState where
  inDocstring : Bool
  delim : List Char
  docLines : List (List Char)
deriving DecidableEq

/-- The state at the start of a file scan. -/
def initState : ScanState := ⟨false, [], []⟩

/-- The delimiter flavor recorded by `translate_file` for a line whose
stripped form opens with a triple quote: `\x22\x22\x22` whenever that
sequence occurs anywhere in the raw line, `'''` otherwise. -/
def delimOf (line : List Char) : List Char :=
  if hasSubstr q3 line = true then q3 else t3

/-- The separator inserted between the code part and a rewritten
comment. -/
def hashSep : List Char := [' ', ' ', hashChar, ' ']

/-- The indentation prefix of a line, as `len(line) - len(line.lstrip())`
spaces. -/
def indentSpaces (line : List Char) : List Char :=
  List.replicate ((line.takeWhile pyIsSpace).length) ' '

/-- The single-line docstring content: the stripped line with all
leading and trailing delimiter-quote characters removed
(Python `stripped.strip(delimiter)`). -/
def docContentInline (delim line : List Char) : List Char :=
  pyStrip (fun c => delim.contains c) (pyStripWS line)

/-- Handling of a line with a hash in idle state: a nonempty non-Chinese
comment part is translated and reattached after the right-stripped code
part, anything else passes the line through. -/
def handleComment (tr : Backend) (line : List Char) : List (List Char) × List Span :=
  if (_split_code_comment line).2 ≠ [] ∧
      _contains_chinese (_split_code_comment line).2 = false then
    ([(_split_code_comment line).1 ++ hashSep ++
        translate_text tr ((_split_code_comment line).2) ctxComment],
     [⟨(_split_code_comment line).2, SpanKind.comment⟩])
  else
    ([line],
     if (_split_code_comment line).2 = [] then []
     else [⟨(_split_code_comment line).2, SpanKind.comment⟩])

/-- Handling of a single-line docstring: a nonempty non-Chinese content
is translated and rewrapped in the delimiter at the original
indentation, anything else passes the line through. -/
def handleInlineDoc (tr : Backend) (line delim : List Char) : List (List Char) × List Span :=
  if docContentInline delim line ≠ [] ∧
      _contains_chinese (docContentInline delim line) = false then
    ([indentSpaces line ++ delim ++
        translate_text tr (docContentInline delim line) ctxDocstring ++ delim],
     [⟨docContentInline delim line, SpanKind.docSingle⟩])
  else
    ([line],
     if docContentInline delim line = [] then []
     else [⟨docContentInline delim line, SpanKind.docSingle⟩])

/-- `some` of a list when it is nonempty, `none` otherwise
(Python `if content:`). -/
def optNonempty (l : List Char) : Option (List Char) :=
  if l = [] then none else some l

/-- Content contributed by the `j`-th of `n` accumulated block lines:
first line loses the opening delimiter, last line loses the closing
delimiter (both dropped when empty), interior lines are stripped. -/
def docLineContent (delim : List Char) (n j : Nat) (dl : List Char) : Option (List Char) :=
  if j = 0 then optNonempty (pyLStrip (fun c => delim.contains c) (pyStripWS dl))
  else if j = n - 1 then optNonempty (pyRStrip (fun c => delim.contains c) (pyStripWS dl))
  else some (pyStripWS dl)

/-- The docstring content of a closed block: the per-line contents
joined by newlines. -/
def docContentOf (delim : List Char) (dls : List (List Char)) : List Char :=
  joinNL (dls.enum.filterMap (fun p => docLineContent delim dls.length p.1 p.2))

/-- Handling of the closing line of a multi-line docstring block: a
nonempty non-Chinese content is translated and rebuilt between fresh
delimiter lines at the block's indentation, anything else emits the
accumulated lines verbatim. -/
def closeBlock (tr : Backend) (delim : List Char) (dls : List (List Char)) :
    List (List Char) × List Span :=
  if docContentOf delim dls ≠ [] ∧
      _contains_chinese (docContentOf delim dls) = false then
    ([indentSpaces (dls.headD []) ++ delim] ++
       ((splitNL (translate_text tr (docContentOf delim dls) ctxDocstring)).filter
          (fun l => !(pyStripWS l).isEmpty)).map
         (fun l => indentSpaces (dls.headD []) ++ l) ++
       [indentSpaces (dls.headD []) ++ delim],
     [⟨docContentOf delim dls, SpanKind.docMulti⟩])
  else
    (dls,
     if docContentOf delim dls = [] then []
     else [⟨docContentOf delim dls, SpanKind.docMulti⟩])

/-- One iteration of the scanning loop of `translate_file`: consumes one
line, returns the next state, the output lines appended for this line,
and the spans handed to the gate. -/
def processLine (tr : Backend) (st : ScanState) (line : List Char) :
    ScanState × List (List Char) × List Span :=
  if st.inDocstring = false then
    if (q3.isPrefixOf (pyStripWS line) || t3.isPrefixOf (pyStripWS line)) = true then
      if 2 ≤ pyCount (delimOf line) (pyStripWS line) ∧ 6 < (pyStripWS line).length then
        (st, handleInlineDoc tr line (delimOf line))
      else (⟨true, delimOf line, [line]⟩, [], [])
    else if line.contains hashChar = true then (st, handleComment tr line)
    else (st, [line], [])
  else
    if hasSubstr st.delim (pyStripWS line) = true then
      (⟨false, st.delim, []⟩, closeBlock tr st.delim (st.docLines ++ [line]))
    else (⟨true, st.delim, st.docLines ++ [line]⟩, [], [])

/-- The scanning loop of `translate_file` over a list of lines.  Note
that, as in the source, block lines still accumulated when the input
ends are not flushed into the output. -/
def scanLines (tr : Backend) : ScanState → List (List Char) →
    ScanState × List (List Char) × List Span
  | st, [] => (st, [], [])
  | st, l :: ls =>
    ((scanLines tr (processLine tr st l).1 ls).1,
     (processLine tr st l).2.1 ++ (scanLines tr (processLine tr st l).1 ls).2.1,
     (processLine tr st l).2.2 ++ (scanLines tr (processLine tr st l).1 ls).2.2)

/-- The output lines produced by scanning a file's lines from the
initial state. -/
def translateLines (tr : Backend) (ls : List (List Char)) : List (List Char) :=
  (scanLines tr initState ls).2.1

/-- The spans found while scanning a file's content. -/
def spansOfFile (tr : Backend) (content : List Char) : List Span :=
  (scanLines tr initState (splitNL content)).2.2

/-- The scanner state after consuming a file's content. -/
def finalStateOf (tr : Backend) (content : List Char) : ScanState :=
  (scanLines tr initState (splitNL content)).1

/-- The content transformation of `translate_file`: split into lines,
run the scanning loop, join with newlines. -/
def translateFileContent (tr : Backend) (content : List Char) : List Char :=
  joinNL (translateLines tr (splitNL content))

/-- The write effect of `translate_file`: `some` of the new content when
a write happens, `none` when nothing is written (dry run, or content
unchanged). -/
def translateFileAction (tr : Backend) (dryRun : Bool) (content : List Char) :
    Option (List Char) :=
  if dryRun = true then none
  else if translateFileContent tr content = content then none
  else some (translateFileContent tr content)

/-- Reference splitter from the specification of the line splitter: a
left-to-right scan with a quoted-literal flag and active quote
character, where an escaped quote does not toggle the flag; returns the
index of the first hash outside any quoted literal. -/
def refBoundary (inQ : Bool) (qc prev : Option Char) : List Char → Option Nat
  | [] => none
  | ch :: rest =>
    if ch == hashChar && !inQ then some 0
    else if (ch == dq || ch == sqc) && !(prev == some bsl) then
      if inQ = false then (refBoundary true (some ch) (some ch) rest).map (· + 1)
      else if some ch == qc then (refBoundary false none (some ch) rest).map (· + 1)
      else (refBoundary inQ qc (some ch) rest).map (· + 1)
    else (refBoundary inQ qc (some ch) rest).map (· + 1)

/-- Reference splitter as worded in the specification: everything before
the boundary right-trimmed, everything after it left-trimmed, and
`(line, empty)` when no unquoted hash exists. -/
def referenceSplit (line : List Char) : List Char × List Char :=
  match refBoundary false none none line with
  | some i => (pyRStrip pyIsSpace (line.take i), pyLStrip pyIsSpace (line.drop (i + 1)))
  | none => (line, [])

/-- Index of the first occurrence of a needle in a list, if any. -/
def findSub (needle : List Char) : List Char → Option Nat
  | [] => if needle = [] then some 0 else none
  | c :: rest =>
    if needle.isPrefixOf (c :: rest) then some 0
    else (findSub needle rest).map (· + 1)

/-- The text strictly between the first two occurrences of a delimiter,
if the delimiter occurs twice. -/
def textBetweenTwo (delim s : List Char) : Option (List Char) :=
  match findSub delim s with
  | none => none
  | some i =>
    match findSub delim (s.drop (i + delim.length)) with
    | none => none
    | some j => some ((s.drop (i + delim.length)).take j)

/-- The lines a scanner state still holds back from the output: the
accumulated block lines while inside a docstring block, nothing
otherwise. -/
def pendingLines (st : ScanState) : List (List Char) :=
  if st.inDocstring = true then st.docLines else []

/-- A backend whose every call raises (is caught as an error). -/
def errBackend : Backend := fun _ => BackendResult.err

/-- A backend that answers every prompt with one fixed Chinese choice. -/
def busyBackend : Backend := fun _ => BackendResult.ok [("你好").data]

/-- A backend that answers with a Chinese choice wrapped in double
quotes. -/
def quotedBackend : Backend :=
  fun _ => BackendResult.ok [[dq] ++ ("你好").data ++ [dq]]

/-- Claim C1: the spec says an unterminated triple-quoted block at end
of file has its accumulated lines emitted back verbatim.  The code does
not: the scanning loop of `translate_file` never flushes
`docstring_lines` after the last line, so the dangling block is dropped
and the content is truncated.  This theorem evaluates the code at the
failing input: a two-line file whose second line opens an unterminated
block comes back as just its first line, for every backend. -/
theorem claim_C1_unterminated_block_dropped (tr : Backend) :
    translateFileContent tr (("a = 1\n\"\"\"oops").data) = ("a = 1").data ∧
    ("a = 1\n\"\"\"oops").data ≠ ("a = 1").data :=
  ⟨rfl, by decide⟩

/-- Claim C6: a backend failure (a raised exception, or a response with
an empty choice list) makes `translate_text` return the original text
unchanged; no backend error propagates out. -/
theorem claim_C6_backend_failure (tr : Backend) (text : List Char) (ctx : String)
    (h : tr (buildPrompt ctx text) = BackendResult.err ∨
      tr (buildPrompt ctx text) = BackendResult.ok []) :
    translate_text tr text ctx = text := by
  unfold translate_text
  split_ifs with h1 h2
  · rfl
  · rfl
  · rcases h with h | h <;> rw [h]

/-- Witness for claim C6 at a concrete input: the always-failing backend
leaves an English comment unchanged. -/
theorem claim_C6_backend_failure_witness :
    translate_text errBackend (("hello world").data) ctxComment = ("hello world").data :=
  claim_C6_backend_failure errBackend (("hello world").data) ctxComment (Or.inl rfl)

/-- Claim C7: a text whose stripped form has fewer than 3 characters, or
with no alphabetic character, or that already contains a CJK unified
ideograph, is returned unchanged by `translate_text`; the quantification
over the backend shows the backend is never consulted. -/
theorem claim_C7_gate_reject (tr : Backend) (text : List Char) (ctx : String)
    (h : (pyStripWS text).length < 3 ∨ text.any pyIsAlpha = false ∨
      _contains_chinese text = true) :
    translate_text tr text ctx = text := by
  unfold translate_text
  split_ifs with h1 h2
  · rfl
  · rfl
  · rcases h with h | h | h
    · exact absurd (Or.inl h) h2
    · exact absurd (Or.inr h) h2
    · exact absurd h h1

/-- Witness for claim C7 at a concrete input: a two-character text is
kept even when the backend would happily answer. -/
theorem claim_C7_gate_reject_witness :
    translate_text busyBackend (("hi").data) ctxComment = ("hi").data :=
  claim_C7_gate_reject busyBackend (("hi").data) ctxComment (Or.inl (by decide))

/-- Claim C8: `translate_file` writes back only when the transformed
text differs from the original, and a preview (dry-run) pass never
writes regardless of whether the content differs. -/
theorem claim_C8_write_guard (tr : Backend) (content : List Char) :
    translateFileAction tr true content = none ∧
    (∀ t, translateFileAction tr false content = some t →
      t ≠ content ∧ t = translateFileContent tr content) := by
  constructor
  · rfl
  · intro t ht
    unfold translateFileAction at ht
    rw [if_neg (show ¬(false = true) by simp)] at ht
    by_cases h : translateFileContent tr content = content
    · rw [if_pos h] at ht
      exact absurd ht (by simp)
    · rw [if_neg h] at ht
      have ht' : translateFileContent tr content = t := by
        injection ht
      subst ht'
      exact ⟨h, rfl⟩

/-- Witness for claim C8 at a concrete input: a file holding one English
comment is transformed to a differing content, which is exactly what a
non-preview pass would write. -/
theorem claim_C8_write_guard_witness :
    ("  # 你好").data ≠ ("# hello world").data ∧
    ("  # 你好").data = translateFileContent busyBackend (("# hello world").data) :=
  (claim_C8_write_guard busyBackend (("# hello world").data)).2
    (("  # 你好").data) (by decide)

/-- Claim C9: for an idle-state line whose stripped form opens with a
triple-quote delimiter and that does not satisfy the single-line
condition, the scanner enters the block state recording `delimOf line`
as the delimiter: the double-quote flavor whenever that sequence occurs
anywhere in the raw line, the single-quote flavor only otherwise. -/
theorem claim_C9_delimiter_flavor (tr : Backend) (st : ScanState) (line : List Char)
    (h0 : st.inDocstring = false)
    (h1 : (q3.isPrefixOf (pyStripWS line) || t3.isPrefixOf (pyStripWS line)) = true)
    (h2 : ¬(2 ≤ pyCount (delimOf line) (pyStripWS line) ∧ 6 < (pyStripWS line).length)) :
    (processLine tr st line).1 = ⟨true, delimOf line, [line]⟩ ∧
    (hasSubstr q3 line = true → delimOf line = q3) ∧
    (hasSubstr q3 line = false → delimOf line = t3) := by
  refine ⟨?_, ?_, ?_⟩
  · unfold processLine
    rw [if_pos h0, if_pos h1, if_neg h2]
  · intro hq
    unfold delimOf
    rw [if_pos hq]
  · intro hq
    unfold delimOf
    rw [if_neg (by simp [hq])]

/-- Witness for claim C9 at a concrete input: a line opening with the
single-quote delimiter but containing the double-quote delimiter later
enters the block state under the double-quote flavor. -/
theorem claim_C9_delimiter_flavor_witness :
    (processLine errBackend initState (t3 ++ ("abc").data ++ q3)).1 =
      ⟨true, delimOf (t3 ++ ("abc").data ++ q3), [t3 ++ ("abc").data ++ q3]⟩ ∧
    delimOf (t3 ++ ("abc").data ++ q3) = q3 :=
  ⟨(claim_C9_delimiter_flavor errBackend initState (t3 ++ ("abc").data ++ q3)
      rfl (by decide) (by decide)).1,
   by decide⟩

/-- Counterexample to claim C2: the code has no notion of an applied
flag and rewrites every accepted comment span in a normalized form.
With a failing backend the translation result is identical to the
original span text, yet the line with a single space before the hash is
rewritten with two spaces, so the original line is not preserved
byte-identically. -/
theorem claim_C2_counterexample :
    translate_text errBackend (("hi there").data) ctxComment = ("hi there").data ∧
    translateFileContent errBackend (("x=1 # hi there").data) =
      ("x=1  # hi there").data ∧
    ("x=1  # hi there").data ≠ ("x=1 # hi there").data := by decide

/-- Claim C2 as amended: a comment span whose translation result is
identical to the original is still rewritten in the normalized form
`codePart ++ two spaces ++ hash ++ space ++ result`; the original line
appears verbatim exactly when it already equals that normalized form. -/
theorem claim_C2_normalized_rewrite (tr : Backend) (st : ScanState)
    (line code c : List Char)
    (h0 : st.inDocstring = false)
    (h1 : (q3.isPrefixOf (pyStripWS line) || t3.isPrefixOf (pyStripWS line)) = false)
    (h2 : line.contains hashChar = true)
    (h3 : _split_code_comment line = (code, c))
    (h4 : c ≠ [])
    (h5 : _contains_chinese c = false) :
    (processLine tr st line).2.1 = [code ++ hashSep ++ translate_text tr c ctxComment] ∧
    (translate_text tr c ctxComment = c → line = code ++ hashSep ++ c →
      (processLine tr st line).2.1 = [line]) := by
  have hout : (processLine tr st line).2.1 =
      [code ++ hashSep ++ translate_text tr c ctxComment] := by
    unfold processLine
    rw [if_pos h0, if_neg (by simp [h1]), if_pos h2]
    unfold handleComment
    rw [h3]
    rw [if_pos ⟨by simpa using h4, by simpa using h5⟩]
  refine ⟨hout, fun hid hline => ?_⟩
  rw [hout, hid, ← hline]

/-- Witness for the amended claim C2 at a concrete input: with a failing
backend the translation result equals the original comment, and a line
already in normalized form is preserved byte-identically. -/
theorem claim_C2_normalized_rewrite_witness :
    (processLine errBackend initState (("x = 1  # hi there").data)).2.1 =
      [("x = 1  # hi there").data] :=
  (claim_C2_normalized_rewrite errBackend initState (("x = 1  # hi there").data)
      (("x = 1").data) (("hi there").data)
      rfl (by decide) (by decide) (by decide) (by decide) (by decide)).2
    (by decide) (by decide)

/-- The counterexample line for claim C4: four double quotes, `Hi`, four
double quotes. -/
def fourQuoteLine : List Char :=
  List.replicate 4 dq ++ ("Hi").data ++ List.replicate 4 dq

/-- Counterexample to claim C4: the code takes the single-line docstring
content by stripping every leading and trailing delimiter-quote
character (Python `strip(delimiter)`), not by taking the text between
the two delimiter occurrences.  On a line of four quotes, `Hi`, four
quotes, the emitted span content is `Hi`, while the text between the two
occurrences of the delimiter starts with a leftover quote. -/
theorem claim_C4_counterexample :
    spansOfFile errBackend fourQuoteLine = [⟨("Hi").data, SpanKind.docSingle⟩] ∧
    textBetweenTwo q3 (pyStripWS fourQuoteLine) = some ([dq] ++ ("Hi").data) ∧
    ("Hi").data ≠ [dq] ++ ("Hi").data := by decide

/-- Claim C4 as amended: for an idle-state line whose stripped form
opens with a triple-quote delimiter, whose count of that delimiter is at
least two and whose stripped length exceeds six, with a nonempty
stripped content, the scanner emits exactly one inline docstring span
whose content is the stripped line with all leading and trailing
delimiter-quote characters removed, and stays in the idle state. -/
theorem claim_C4_inline_span (tr : Backend) (st : ScanState) (line : List Char)
    (h0 : st.inDocstring = false)
    (h1 : (q3.isPrefixOf (pyStripWS line) || t3.isPrefixOf (pyStripWS line)) = true)
    (h2 : 2 ≤ pyCount (delimOf line) (pyStripWS line) ∧ 6 < (pyStripWS line).length)
    (h3 : docContentInline (delimOf line) line ≠ []) :
    (processLine tr st line).2.2 =
      [⟨docContentInline (delimOf line) line, SpanKind.docSingle⟩] ∧
    (processLine tr st line).1 = st := by
  have hres : processLine tr st line = (st, handleInlineDoc tr line (delimOf line)) := by
    unfold processLine
    rw [if_pos h0, if_pos h1, if_pos h2]
  rw [hres]
  refine ⟨?_, rfl⟩
  show (handleInlineDoc tr line (delimOf line)).2 = _
  unfold handleInlineDoc
  by_cases hch : _contains_chinese (docContentInline (delimOf line) line) = false
  · rw [if_pos ⟨h3, hch⟩]
  · rw [if_neg (fun hh => hch hh.2)]
    simp [h3]

/-- Witness for the amended claim C4 at the spec's own example: the line
containing `Hello world` between triple double quotes yields exactly one
inline docstring span with content `Hello world`. -/
theorem claim_C4_inline_span_witness :
    (processLine errBackend initState (("\"\"\"Hello world\"\"\"").data)).2.2 =
      [⟨("Hello world").data, SpanKind.docSingle⟩] := by
  have h := (claim_C4_inline_span errBackend initState (("\"\"\"Hello world\"\"\"").data)
      rfl (by decide) (by decide) (by decide)).1
  rw [h]
  decide

/-- The head surviving a `dropWhile` does not satisfy the predicate. -/
theorem dropWhile_head_nsat (p : Char → Bool) :
    ∀ (l : List Char) (x : Char), (l.dropWhile p).head? = some x → p x = false := by
  intro l
  induction l with
  | nil => intro x h; simp [List.dropWhile] at h
  | cons c rest ih =>
    intro x h
    by_cases hc : p c = true
    · rw [List.dropWhile_cons_of_pos hc] at h
      exact ih x h
    · rw [List.dropWhile_cons_of_neg (by simpa using hc)] at h
      have : c = x := by simpa using h
      subst this
      simpa using hc

/-- A nonempty `dropWhile` keeps the last element of the list. -/
theorem dropWhile_getLast_of_ne_nil (p : Char → Bool) :
    ∀ (l : List Char), l.dropWhile p ≠ [] →
      (l.dropWhile p).getLast? = l.getLast? := by
  intro l
  induction l with
  | nil => intro h; simp [List.dropWhile] at h
  | cons c rest ih =>
    intro h
    by_cases hc : p c = true
    · rw [List.dropWhile_cons_of_pos hc] at h ⊢
      have hrest : rest ≠ [] := by
        intro he
        subst he
        simp [List.dropWhile] at h
      obtain ⟨y, t, rfl⟩ := List.exists_cons_of_ne_nil hrest
      rw [ih h, List.getLast?_cons_cons]
    · rw [List.dropWhile_cons_of_neg (by simpa using hc)]

/-- The first character of a both-side strip never satisfies the
stripping predicate. -/
theorem pyStrip_head_nsat (p : Char → Bool) (l : List Char) (x : Char)
    (h : (pyStrip p l).head? = some x) : p x = false := by
  unfold pyStrip pyRStrip pyLStrip at h
  rw [List.head?_reverse] at h
  have hne : (l.dropWhile p).reverse.dropWhile p ≠ [] := by
    intro he
    rw [he] at h
    simp at h
  rw [dropWhile_getLast_of_ne_nil p _ hne, List.getLast?_reverse] at h
  exact dropWhile_head_nsat p _ x h

/-- The last character of a both-side strip never satisfies the
stripping predicate. -/
theorem pyStrip_getLast_nsat (p : Char → Bool) (l : List Char) (x : Char)
    (h : (pyStrip p l).getLast? = some x) : p x = false := by
  unfold pyStrip pyRStrip pyLStrip at h
  rw [List.getLast?_reverse] at h
  exact dropWhile_head_nsat p _ x h

/-- Claim C10: for an accepted span answered by the backend,
`translate_text` strips whitespace and then any leading and trailing
quote characters from the first choice, so the returned translation
never begins or ends with a double- or single-quote character. -/
theorem claim_C10_quote_strip (tr : Backend) (text : List Char) (ctx : String)
    (c : List Char) (rest : List (List Char))
    (h1 : _contains_chinese text = false)
    (h2 : ¬((pyStripWS text).length < 3 ∨ text.any pyIsAlpha = false))
    (h3 : tr (buildPrompt ctx text) = BackendResult.ok (c :: rest)) :
    translate_text tr text ctx = pyStrip isQuoteChar (pyStripWS c) ∧
    (∀ x, (translate_text tr text ctx).head? = some x → isQuoteChar x = false) ∧
    (∀ x, (translate_text tr text ctx).getLast? = some x → isQuoteChar x = false) := by
  have he : translate_text tr text ctx = pyStrip isQuoteChar (pyStripWS c) := by
    unfold translate_text
    rw [if_neg (by simp [h1]), if_neg h2, h3]
  refine ⟨he, fun x hx => ?_, fun x hx => ?_⟩
  · rw [he] at hx
    exact pyStrip_head_nsat _ _ _ hx
  · rw [he] at hx
    exact pyStrip_getLast_nsat _ _ _ hx

/-- Witness for claim C10 at a concrete input: a backend reply wrapped
in double quotes comes back with the quotes removed. -/
theorem claim_C10_quote_strip_witness :
    translate_text quotedBackend (("good text").data) ctxComment = ("你好").data := by
  have h := (claim_C10_quote_strip quotedBackend (("good text").data) ctxComment
      ([dq] ++ ("你好").data ++ [dq]) [] (by decide) (by decide) rfl).1
  rw [h]
  decide

/-- Splitting on newlines never yields an empty list of lines. -/
theorem splitNL_ne_nil : ∀ l : List Char, splitNL l ≠ [] := by
  intro l
  cases l with
  | nil => simp [splitNL]
  | cons c rest =>
    unfold splitNL
    by_cases hc : (c == nlc) = true
    · simp [hc]
    · rw [if_neg (by simpa using hc)]
      cases h : splitNL rest <;> simp

/-- Joining the newline-split lines gives back the original content. -/
theorem joinNL_splitNL : ∀ l : List Char, joinNL (splitNL l) = l := by
  intro l
  induction l with
  | nil => rfl
  | cons c rest ih =>
    unfold splitNL
    by_cases hc : (c == nlc) = true
    · rw [if_pos hc]
      obtain ⟨h, t, heq⟩ := List.exists_cons_of_ne_nil (splitNL_ne_nil rest)
      rw [heq]
      show joinNL ([] :: h :: t) = c :: rest
      have hcn : c = nlc := by simpa using hc
      subst hcn
      unfold joinNL
      rw [show joinNL (h :: t) = rest from by rw [← heq]; exact ih]
      rfl
    · rw [if_neg (by simpa using hc)]
      obtain ⟨h, t, heq⟩ := List.exists_cons_of_ne_nil (splitNL_ne_nil rest)
      rw [heq]
      show joinNL ((c :: h) :: t) = c :: rest
      have hjoin : joinNL ((c :: h) :: t) = c :: joinNL (h :: t) := by
        cases t with
        | nil => rfl
        | cons y t2 => rfl
      rw [hjoin, show joinNL (h :: t) = rest from by rw [← heq]; exact ih]

/-- When every span of a comment line already contains Chinese, the line
passes through unchanged. -/
theorem handleComment_chinese (tr : Backend) (line : List Char)
    (h : ∀ s ∈ (handleComment tr line).2, _contains_chinese s.text = true) :
    (handleComment tr line).1 = [line] := by
  by_cases h4 : (_split_code_comment line).2 = []
  · unfold handleComment
    rw [if_neg (fun hh => hh.1 h4)]
  · by_cases hch : _contains_chinese ((_split_code_comment line).2) = false
    · exfalso
      have hmem : (⟨(_split_code_comment line).2, SpanKind.comment⟩ : Span) ∈
          (handleComment tr line).2 := by
        unfold handleComment
        rw [if_pos ⟨h4, hch⟩]
        simp
      have ht := h _ hmem
      simp only at ht
      rw [ht] at hch
      exact Bool.noConfusion hch
    · unfold handleComment
      rw [if_neg (fun hh => hch hh.2)]

/-- When every span of a single-line docstring already contains Chinese,
the line passes through unchanged. -/
theorem handleInlineDoc_chinese (tr : Backend) (line delim : List Char)
    (h : ∀ s ∈ (handleInlineDoc tr line delim).2, _contains_chinese s.text = true) :
    (handleInlineDoc tr line delim).1 = [line] := by
  by_cases h4 : docContentInline delim line = []
  · unfold handleInlineDoc
    rw [if_neg (fun hh => hh.1 h4)]
  · by_cases hch : _contains_chinese (docContentInline delim line) = false
    · exfalso
      have hmem : (⟨docContentInline delim line, SpanKind.docSingle⟩ : Span) ∈
          (handleInlineDoc tr line delim).2 := by
        unfold handleInlineDoc
        rw [if_pos ⟨h4, hch⟩]
        simp
      have ht := h _ hmem
      simp only at ht
      rw [ht] at hch
      exact Bool.noConfusion hch
    · unfold handleInlineDoc
      rw [if_neg (fun hh => hch hh.2)]

/-- When every span of a closing block already contains Chinese, the
accumulated block lines are emitted verbatim. -/
theorem closeBlock_chinese (tr : Backend) (delim : List Char)
    (dls : List (List Char))
    (h : ∀ s ∈ (closeBlock tr delim dls).2, _contains_chinese s.text = true) :
    (closeBlock tr delim dls).1 = dls := by
  by_cases h4 : docContentOf delim dls = []
  · unfold closeBlock
    rw [if_neg (fun hh => hh.1 h4)]
  · by_cases hch : _contains_chinese (docContentOf delim dls) = false
    · exfalso
      have hmem : (⟨docContentOf delim dls, SpanKind.docMulti⟩ : Span) ∈
          (closeBlock tr delim dls).2 := by
        unfold closeBlock
        rw [if_pos ⟨h4, hch⟩]
        simp
      have ht := h _ hmem
      simp only at ht
      rw [ht] at hch
      exact Bool.noConfusion hch
    · unfold closeBlock
      rw [if_neg (fun hh => hch hh.2)]

/-- One scanning step on a line whose spans all already contain Chinese:
the emitted lines plus the still-pending block lines are exactly the
previously pending lines plus the consumed line, verbatim. -/
theorem processLine_chinese (tr : Backend) (st : ScanState) (line : List Char)
    (h : ∀ s ∈ (processLine tr st line).2.2, _contains_chinese s.text = true) :
    (processLine tr st line).2.1 ++ pendingLines (processLine tr st line).1 =
      pendingLines st ++ [line] := by
  by_cases hd : st.inDocstring = false
  · have hp : pendingLines st = [] := by
      unfold pendingLines
      rw [if_neg (by simp [hd])]
    by_cases h1 : (q3.isPrefixOf (pyStripWS line) || t3.isPrefixOf (pyStripWS line)) = true
    · by_cases h2 : 2 ≤ pyCount (delimOf line) (pyStripWS line) ∧ 6 < (pyStripWS line).length
      · have hres : processLine tr st line = (st, handleInlineDoc tr line (delimOf line)) := by
          unfold processLine
          rw [if_pos hd, if_pos h1, if_pos h2]
        rw [hres] at h ⊢
        show (handleInlineDoc tr line (delimOf line)).1 ++ pendingLines st = _
        rw [handleInlineDoc_chinese tr line (delimOf line) h, hp]
        simp
      · have hres : processLine tr st line = (⟨true, delimOf line, [line]⟩, [], []) := by
          unfold processLine
          rw [if_pos hd, if_pos h1, if_neg h2]
        rw [hres, hp]
        rfl
    · by_cases h3 : line.contains hashChar = true
      · have hres : processLine tr st line = (st, handleComment tr line) := by
          unfold processLine
          rw [if_pos hd, if_neg h1, if_pos h3]
        rw [hres] at h ⊢
        show (handleComment tr line).1 ++ pendingLines st = _
        rw [handleComment_chinese tr line h, hp]
        simp
      · have hres : processLine tr st line = (st, [line], []) := by
          unfold processLine
          rw [if_pos hd, if_neg h1, if_neg h3]
        rw [hres, hp]
        rfl
  · have hd' : st.inDocstring = true := by
      cases hb : st.inDocstring
      · exact absurd hb hd
      · rfl
    have hp : pendingLines st = st.docLines := by
      unfold pendingLines
      rw [if_pos hd']
    by_cases h1 : hasSubstr st.delim (pyStripWS line) = true
    · have hres : processLine tr st line =
          (⟨false, st.delim, []⟩, closeBlock tr st.delim (st.docLines ++ [line])) := by
        unfold processLine
        rw [if_neg (by simp [hd']), if_pos h1]
      rw [hres] at h ⊢
      show (closeBlock tr st.delim (st.docLines ++ [line])).1 ++
        pendingLines ⟨false, st.delim, []⟩ = _
      rw [closeBlock_chinese tr st.delim (st.docLines ++ [line]) h, hp]
      simp [pendingLines]
    · have hres : processLine tr st line =
          (⟨true, st.delim, st.docLines ++ [line]⟩, [], []) := by
        unfold processLine
        rw [if_neg (by simp [hd']), if_neg h1]
      rw [hres, hp]
      rfl

/-- The scanning loop on lines whose spans all already contain Chinese:
the output plus the pending block lines equals the pending lines plus
the input, verbatim. -/
theorem scanLines_chinese (tr : Backend) :
    ∀ (ls : List (List Char)) (st : ScanState),
      (∀ s ∈ (scanLines tr st ls).2.2, _contains_chinese s.text = true) →
      (scanLines tr st ls).2.1 ++ pendingLines (scanLines tr st ls).1 =
        pendingLines st ++ ls := by
  intro ls
  induction ls with
  | nil =>
    intro st h
    simp [scanLines]
  | cons l ls ih =>
    intro st h
    have h1 : ∀ s ∈ (processLine tr st l).2.2, _contains_chinese s.text = true :=
      fun s hs => h s (by
        show s ∈ (scanLines tr st (l :: ls)).2.2
        unfold scanLines
        exact List.mem_append_left _ hs)
    have h2 : ∀ s ∈ (scanLines tr (processLine tr st l).1 ls).2.2,
        _contains_chinese s.text = true :=
      fun s hs => h s (by
        show s ∈ (scanLines tr st (l :: ls)).2.2
        unfold scanLines
        exact List.mem_append_right _ hs)
    have e1 := processLine_chinese tr st l h1
    have e2 := ih (processLine tr st l).1 h2
    show (scanLines tr st (l :: ls)).2.1 ++ pendingLines (scanLines tr st (l :: ls)).1 = _
    unfold scanLines
    rw [List.append_assoc, e2, ← List.append_assoc, e1, List.append_assoc]
    rfl

/-- Counterexample to claim C5 as universally stated: a file consisting
of one line that opens an unterminated block has no spans at all (so
every span vacuously contains Chinese), yet the output is empty, not
identical to the input, because the dangling block is dropped. -/
theorem claim_C5_counterexample :
    spansOfFile errBackend (q3 ++ ("中文").data) = [] ∧
    translateFileContent errBackend (q3 ++ ("中文").data) = [] ∧
    q3 ++ ("中文").data ≠ [] := by decide

/-- Claim C5 as amended: for every file whose scan ends outside an
unterminated block and in which each comment or docstring span already
contains Chinese characters, `translate_file` produces content
identical to the input; in particular every line holding an
already-Chinese comment is byte-identical in the output. -/
theorem claim_C5_identity (tr : Backend) (content : List Char)
    (h1 : ∀ s ∈ spansOfFile tr content, _contains_chinese s.text = true)
    (h2 : (finalStateOf tr content).inDocstring = false) :
    translateFileContent tr content = content := by
  unfold spansOfFile at h1
  unfold finalStateOf at h2
  have he := scanLines_chinese tr (splitNL content) initState h1
  have hfin : pendingLines (scanLines tr initState (splitNL content)).1 = [] := by
    unfold pendingLines
    rw [if_neg (by simp [h2])]
  rw [hfin, List.append_nil] at he
  have hinit : pendingLines initState = [] := rfl
  rw [hinit, List.nil_append] at he
  unfold translateFileContent translateLines
  rw [he, joinNL_splitNL]

/-- Witness for the amended claim C5 at a concrete input: a file with an
already-Chinese comment line and a code line is reproduced
byte-identically. -/
theorem claim_C5_identity_witness :
    translateFileContent errBackend (("# 这是中文\nx = 1").data) =
      ("# 这是中文\nx = 1").data :=
  claim_C5_identity errBackend (("# 这是中文\nx = 1").data) (by decide) (by decide)

/-- A character cannot satisfy the hash guard and the quote guard of the
splitter scan at once. -/
theorem hash_not_quote (ch : Char) (inS : Bool) (prev : Option Char)
    (hh : (ch == hashChar && !inS) = true)
    (hq : ((ch == dq || ch == sqc) && !(prev == some bsl)) = true) : False := by
  have h1 : ch = hashChar := by
    have := (Bool.and_eq_true _ _).mp hh
    exact eq_of_beq this.1
  subst h1
  have h2 : (hashChar == dq || hashChar == sqc) = true :=
    ((Bool.and_eq_true _ _).mp hq).1
  revert h2
  decide

/-- The accumulator-based scan of `_split_code_comment` agrees with the
index-returning reference scan: it finds the same boundary and returns
the untrimmed parts around it. -/
theorem findHash_eq_refBoundary :
    ∀ (rest : List Char) (inS : Bool) (sc prev : Option Char) (before : List Char),
      findHash prev inS sc before rest =
        (refBoundary inS sc prev rest).map
          (fun i => (before ++ rest.take i, rest.drop (i + 1))) := by
  intro rest
  induction rest with
  | nil => intro inS sc prev before; rfl
  | cons ch rest ih =>
    intro inS sc prev before
    by_cases hh : (ch == hashChar && !inS) = true
    · by_cases hq : ((ch == dq || ch == sqc) && !(prev == some bsl)) = true
      · exact absurd hq (fun hq => hash_not_quote ch inS prev hh hq)
      · unfold findHash refBoundary
        rw [if_neg hq, if_pos hh, if_pos hh]
        simp
    · by_cases hq : ((ch == dq || ch == sqc) && !(prev == some bsl)) = true
      · unfold findHash refBoundary
        rw [if_pos hq, if_neg hh, if_pos hq]
        by_cases hi : inS = false
        · rw [if_pos hi, if_pos hi, ih]
          cases hr : refBoundary true (some ch) (some ch) rest <;>
            simp [hr, List.take_succ_cons, List.drop_succ_cons]
        · rw [if_neg hi, if_neg hi]
          by_cases hsc : (some ch == sc) = true
          · rw [if_pos hsc, if_pos hsc, ih]
            cases hr : refBoundary false none (some ch) rest <;>
              simp [hr, List.take_succ_cons, List.drop_succ_cons]
          · rw [if_neg hsc, if_neg hsc, ih]
            cases hr : refBoundary inS sc (some ch) rest <;>
              simp [hr, List.take_succ_cons, List.drop_succ_cons]
      · unfold findHash refBoundary
        rw [if_neg hq, if_neg hh, if_neg hh, if_neg hq, ih]
        cases hr : refBoundary inS sc (some ch) rest <;>
          simp [hr, List.take_succ_cons, List.drop_succ_cons]

/-- A line without a hash has no boundary under the reference scan. -/
theorem refBoundary_none_of_no_hash :
    ∀ (l : List Char) (inQ : Bool) (qc prev : Option Char),
      l.contains hashChar = false → refBoundary inQ qc prev l = none := by
  intro l
  induction l with
  | nil => intro inQ qc prev _; rfl
  | cons ch rest ih =>
    intro inQ qc prev hc
    have hc1 : (ch == hashChar) = false := by
      cases hb : ch == hashChar
      · rfl
      · exfalso
        have : List.contains (ch :: rest) hashChar = true := by
          simp [List.contains]
          left
          exact (eq_of_beq hb).symm
        rw [this] at hc
        exact Bool.noConfusion hc
    have hc2 : rest.contains hashChar = false := by
      cases hb : rest.contains hashChar
      · rfl
      · exfalso
        have : List.contains (ch :: rest) hashChar = true := by
          simp [List.contains] at hb ⊢
          right
          exact hb
        rw [this] at hc
        exact Bool.noConfusion hc
    unfold refBoundary
    rw [if_neg (by simp [hc1])]
    split_ifs <;> simp [ih _ _ _ hc2]

/-- Counterexample to claim C3: the code trims the comment part on both
sides (Python `strip()`), while the reference splitter of the
specification only left-trims it; a comment with trailing whitespace
tells them apart. -/
theorem claim_C3_counterexample :
    _split_code_comment (("x # c ").data) = (("x").data, ("c").data) ∧
    referenceSplit (("x # c ").data) = (("x").data, ("c ").data) ∧
    _split_code_comment (("x # c ").data) ≠ referenceSplit (("x # c ").data) := by
  decide

/-- Claim C3 as amended: for every line, `_split_code_comment` behaves
exactly as the reference splitter (same quote-flag scan, same first
unquoted hash boundary, code part right-trimmed, `(line, empty)` when no
unquoted hash exists) except that the comment part is additionally
right-trimmed, i.e. trimmed on both sides. -/
theorem claim_C3_reference_equiv (line : List Char) :
    _split_code_comment line =
      ((referenceSplit line).1, pyRStrip pyIsSpace (referenceSplit line).2) := by
  unfold _split_code_comment referenceSplit
  by_cases hc : line.contains hashChar = false
  · rw [if_pos hc, refBoundary_none_of_no_hash line false none none hc]
    rfl
  · rw [if_neg hc, findHash_eq_refBoundary line false none none []]
    cases hr : refBoundary false none none line with
    | none => rfl
    | some i => simp [pyStrip]
